import Mathlib

/-!
Verification of the dense-matrix engine and feed-forward neural network of
the Handwritten-Digit-Classification repository.

The embedding follows the sources:
  * `Matrix.cpp` (optimized implementation): a rectangular grid backed by a
    flat row-major store of `rows * cols` scalar values, with `dot`
    (which transposes its right operand before multiplying), `transpose`,
    and whitespace-token stream (de)serialization.
  * the baseline `Matrix.cpp` (nested `std::vector<std::vector<Val>>`
    storage): its `dot` with direct column-strided indexing, embedded as
    `dotBase` over `List (List Rat)`.
  * `NeuralNet.cpp`: construction (`ofLayers`), `classify`, `learn`, and the
    stream insertion/extraction operators (`nnetWrite` / `nnetRead`).

Scalars are embedded as `Rat` (the C++ `Val` is a floating-point type; the
claims under study are about the algebraic structure of the computations, so
exact arithmetic is used).  The activation function and its derivative are
parameters (`sig`, `sigd`) of the embedded operations: the C++ `sigmoid` /
`invSigmoid` live in the missing `NeuralNet.h` header and every claim treats
them as opaque elementwise maps.

The element-wise operators `+`, `-`, Hadamard `*`, scalar `*` and `apply`
are declared in the missing `Matrix.h` header; they are modelled from the
spec (section 4.1), as noted on each definition.

Streams are modelled at whitespace-token granularity: an input stream is a
list of tokens (numeric or non-numeric words) plus a good/fail flag,
mirroring `std::istream` semantics where a failed extraction writes 0 to
the target (C++11) and sets the fail state, after which further extractions
are no-ops.
-/

namespace DigitNet

/-- A matrix as in the optimized `Matrix.cpp`: `rows`, `cols` and a flat
row-major backing store `data` (entry (i, j) lives at `i * cols + j`). -/
structure Matrix where
  rows : Nat
  cols : Nat
  data : List Rat
deriving DecidableEq, Inhabited

/-- The `Matrix(row, col, initVal)` constructor: a `row * col` backing
store, every entry `initVal`. -/
def Matrix.ofDims (row col : Nat) (initVal : Rat) : Matrix :=
  ⟨row, col, List.replicate (row * col) initVal⟩

/-- Read entry (i, j) of the flat store, as `data[i*cols + j]` does
(out-of-range reads give the default scalar 0). -/
def Matrix.get (m : Matrix) (i j : Nat) : Rat :=
  m.data.getD (i * m.cols + j) 0

/-- The well-formedness invariant of the C++ class: the backing store always
holds exactly `rows * cols` values. -/
def Matrix.WF (m : Matrix) : Prop :=
  m.data.length = m.rows * m.cols

/-- Allocate an `r x c` result and fill every position (i, j) with
`f i j`, exactly as the C++ loops `result.data[i*c + j] = f(i, j)` fill a
freshly constructed result matrix (each position is written once). -/
def Matrix.ofFn (r c : Nat) (f : Nat → Nat → Rat) : Matrix :=
  ⟨r, c, (List.range (r * c)).map (fun k => f (k / c) (k % c))⟩

/-- `Matrix::transpose` from the optimized `Matrix.cpp`: an empty matrix
(0 rows or 0 cols) is returned unchanged; otherwise the result has the
dimensions flipped and `result.data[col*rows + row] = data[row*cols + col]`. -/
def Matrix.transpose (m : Matrix) : Matrix :=
  if m.rows = 0 ∨ m.cols = 0 then m
  else Matrix.ofFn m.cols m.rows (fun col row => m.get row col)

/-- `Matrix::dot` from the optimized `Matrix.cpp`: transposes `rhs`, then
fills `result.data[row*mWidth + col]` with the accumulated sum over `i` of
`data[row*width + i] * transposed_rhs.data[col*width + i]`
(`width = cols`, `mWidth = rhs.cols`).  The `assert(cols == rhs.rows)`
precondition is carried as a hypothesis of the theorems. -/
def Matrix.dot (m rhs : Matrix) : Matrix :=
  let mWidth := rhs.cols
  let width := m.cols
  let transposed_rhs := rhs.transpose
  Matrix.ofFn m.rows mWidth (fun row col =>
    ((List.range width).map (fun i =>
      m.data.getD (row * width + i) 0 * transposed_rhs.data.getD (col * width + i) 0)).sum)

/-- Modelled from the spec: `operator+` (element-wise, same-shape required)
from the missing `Matrix.h` produces a new matrix of the same shape with
entries summed. -/
def Matrix.add (m rhs : Matrix) : Matrix :=
  Matrix.ofFn m.rows m.cols (fun i j => m.get i j + rhs.get i j)

/-- Modelled from the spec: `operator-` (element-wise, same-shape required)
from the missing `Matrix.h` produces a new matrix of the same shape with
entries subtracted. -/
def Matrix.sub (m rhs : Matrix) : Matrix :=
  Matrix.ofFn m.rows m.cols (fun i j => m.get i j - rhs.get i j)

/-- Modelled from the spec: element-wise `operator*` (Hadamard product,
same-shape required) from the missing `Matrix.h`. -/
def Matrix.hadamard (m rhs : Matrix) : Matrix :=
  Matrix.ofFn m.rows m.cols (fun i j => m.get i j * rhs.get i j)

/-- Modelled from the spec: `operator*` with a scalar from the missing
`Matrix.h` scales every entry. -/
def Matrix.smul (m : Matrix) (s : Rat) : Matrix :=
  Matrix.ofFn m.rows m.cols (fun i j => m.get i j * s)

/-- Modelled from the spec: `apply(unaryFn)` from the missing `Matrix.h`
maps a scalar function over every element. -/
def Matrix.apply (m : Matrix) (f : Rat → Rat) : Matrix :=
  ⟨m.rows, m.cols, m.data.map f⟩

/-- The nested-row view of a flat matrix, used to relate the optimized
implementation to the baseline nested-vector implementation. -/
def Matrix.toLists (m : Matrix) : List (List Rat) :=
  (List.range m.rows).map (fun r => (List.range m.cols).map (fun c => m.get r c))

/-- `Matrix::dot` from the baseline `Matrix.cpp`, where a matrix is a
`std::vector<std::vector<Val>>`: `mWidth = rhs.front().size()`,
`width = front().size()`, and each result entry accumulates
`(*this)[row][i] * rhs[i][col]` with direct column-strided access to `rhs`. -/
def dotBase (a rhs : List (List Rat)) : List (List Rat) :=
  let mWidth := (rhs.headD []).length
  let width := (a.headD []).length
  (List.range a.length).map (fun row =>
    (List.range mWidth).map (fun col =>
      ((List.range width).map (fun i =>
        ((a.getD row []).getD i 0) * ((rhs.getD i []).getD col 0))).sum))

/-- A whitespace-separated token of the text stream format: a numeric value
or a non-numeric word. -/
inductive Token where
  | num (q : Rat)
  | word (s : String)
deriving DecidableEq, Inhabited

/-- An input stream: the remaining tokens plus the good/fail state of the
stream (`ok = false` once any extraction has failed). -/
structure IStream where
  toks : List Token
  ok : Bool
deriving DecidableEq, Inhabited

/-- Extract one numeric value, as `is >> val` does: on a failed stream the
extraction is a no-op and the target keeps its current value `cur`; on a
good stream a numeric token is consumed, while a non-numeric token or an
exhausted stream writes 0 to the target (C++11) and sets the fail state. -/
def IStream.readNum (s : IStream) (cur : Rat) : Rat × IStream :=
  if s.ok then
    match s.toks with
    | Token.num q :: rest => (q, ⟨rest, true⟩)
    | _ => (0, ⟨s.toks, false⟩)
  else (cur, s)

/-- Extract one integer (the `int height, width` header reads): like
`readNum` but a non-integral numeric token also fails. -/
def IStream.readInt (s : IStream) (cur : Int) : Int × IStream :=
  if s.ok then
    match s.toks with
    | Token.num q :: rest => if q.den = 1 then (q.num, ⟨rest, true⟩) else (0, ⟨s.toks, false⟩)
    | _ => (0, ⟨s.toks, false⟩)
  else (cur, s)

/-- Extract `n` numeric values in sequence, each into a target whose current
value is 0 (the entries of a freshly value-initialized matrix). -/
def readN : Nat → IStream → List Rat × IStream
  | 0, s => ([], s)
  | n + 1, s =>
      let r := s.readNum 0
      let rest := readN n r.2
      (r.1 :: rest.1, rest.2)

/-- `operator<<(std::ostream, const Matrix)` from the optimized
`Matrix.cpp` at token granularity: the `height() width()` header followed by
`data[row*cols + col]` for each row and column in order. -/
def matWrite (m : Matrix) : List Token :=
  Token.num (m.rows : Rat) :: Token.num (m.cols : Rat) ::
    (List.range m.rows).flatMap (fun row =>
      (List.range m.cols).map (fun col => Token.num (m.data.getD (row * m.cols + col) 0)))

/-- `operator>>(std::istream, Matrix)` from the optimized `Matrix.cpp`:
read the two header integers, size the destination as
`Matrix(height, width)` (every entry 0), then read `rows * cols` entries in
row-major order.  The initial header targets are modelled as 0
(the C++ locals are indeterminate; every path exercised here either
overwrites them or has already failed and writes 0). -/
def matRead (s : IStream) : Matrix × IStream :=
  let h1 := s.readInt 0
  let h2 := h1.2.readInt 0
  let m0 := Matrix.ofDims h1.1.toNat h2.1.toNat 0
  let vals := readN (m0.rows * m0.cols) h2.2
  (⟨m0.rows, m0.cols, vals.1⟩, vals.2)

/-- Decide whether a token stream's leading matrix header is malformed:
well-formed means the first two tokens are integral numeric values. -/
def headerBad (toks : List Token) : Bool :=
  match toks with
  | Token.num a :: Token.num b :: _ => ¬(a.den = 1 ∧ b.den = 1)
  | _ => true

/-- Decide whether a token stream has a well-formed matrix header that
promises more values than the stream holds (a truncated stream). -/
def truncatedVals (toks : List Token) : Bool :=
  match toks with
  | Token.num a :: Token.num b :: rest =>
      a.den = 1 ∧ b.den = 1 ∧ rest.length < a.num.toNat * b.num.toNat
  | _ => false

/-- The neural network state of `NeuralNet.cpp`: the layer sizes held as a
1 x L matrix, and the per-transition bias and weight matrices. -/
structure NeuralNet where
  layerSizes : Matrix
  biases : List Matrix
  weights : List Matrix
deriving DecidableEq, Inhabited

/-- `NeuralNet::initBiasAndWeightMatrices`: for each layer
`lyr = 1 .. L-1` push `Matrix(rows, 1)` onto the biases and
`Matrix(rows, cols)` onto the weights, where `rows = layerSizes.at(lyr)`
and `cols = layerSizes.at(lyr - 1)`; all entries take the constructor's
default value 0. -/
def initBiasAndWeightMatrices (layers : List Nat) : List Matrix × List Matrix :=
  ((List.range (layers.length - 1)).map (fun k =>
      Matrix.ofDims (layers.getD (k + 1) 0) 1 0),
   (List.range (layers.length - 1)).map (fun k =>
      Matrix.ofDims (layers.getD (k + 1) 0) (layers.getD k 0) 0))

/-- The `NeuralNet(layers)` constructor: `layerSizes` is a
`1 x layers.size()` matrix holding the layer widths, and the bias and
weight matrices are created by `initBiasAndWeightMatrices`. -/
def NeuralNet.ofLayers (layers : List Nat) : NeuralNet :=
  { layerSizes := ⟨1, layers.length, layers.map (fun n => (n : Rat))⟩,
    biases := (initBiasAndWeightMatrices layers).1,
    weights := (initBiasAndWeightMatrices layers).2 }

/-- The structural invariant of a network against a list of layer widths:
`layerSizes` is the 1 x L row of widths, both parameter lists have length
L-1, and each `weights[l]` is a well-formed `ws[l+1] x ws[l]` matrix with
`biases[l]` a well-formed `ws[l+1] x 1` column. -/
def ShapedNet (net : NeuralNet) (ws : List Nat) : Prop :=
  net.layerSizes.rows = 1 ∧ net.layerSizes.cols = ws.length ∧
  net.biases.length = ws.length - 1 ∧ net.weights.length = ws.length - 1 ∧
  (∀ l, l < ws.length - 1 →
    (net.weights.getD l default).rows = ws.getD (l + 1) 0 ∧
    (net.weights.getD l default).cols = ws.getD l 0 ∧
    (net.weights.getD l default).WF ∧
    (net.biases.getD l default).rows = ws.getD (l + 1) 0 ∧
    (net.biases.getD l default).cols = 1 ∧
    (net.biases.getD l default).WF)

/-- `NeuralNet::classify`: iterate
`result = (weights[lyr].dot(result) + biases[lyr]).apply(sigmoid)` over the
layers.  The method is `const`; its embedding threads the network state
through the loop (the body only reads it) and returns it alongside the
result, so that non-mutation is an explicit part of the model. -/
def NeuralNet.classify (sig : Rat → Rat) (self : NeuralNet) (inputs : Matrix) :
    Matrix × NeuralNet :=
  (List.range self.weights.length).foldl
    (fun st lyr =>
      ((((st.2.weights.getD lyr default).dot st.1).add
          (st.2.biases.getD lyr default)).apply sig, st.2))
    (inputs, self)

/-- One iteration of the forward pass of `NeuralNet::learn`: compute the
pre-activation `z = weights[lyr].dot(activation) + biases[lyr]`, apply the
activation function, and push the new activation and `z` onto the recorded
lists. -/
def fwdStep (sig : Rat → Rat) (weights biases : List Matrix)
    (st : Matrix × List Matrix × List Matrix) (lyr : Nat) :
    Matrix × List Matrix × List Matrix :=
  let z := ((weights.getD lyr default).dot st.1).add (biases.getD lyr default)
  let a := z.apply sig
  (a, st.2.1 ++ [a], st.2.2 ++ [z])

/-- The backward-pass loop of `NeuralNet::learn`
(`for lyr = 2; lyr <= lastLyr`), with the iteration count made explicit as
fuel (`lastLyr - 1` iterations): each step recomputes
`delta = (weights[lastLyr-lyr+1].transpose().dot(delta)) * sp` with
`sp = zs[lastLyr-lyr].apply(invSigmoid)` and pushes `delta` and
`delta.dot(activations[lastLyr-lyr].transpose())` onto the nabla lists. -/
def backLoop (sigd : Rat → Rat) (weights zs activations : List Matrix)
    (lastLyr : Nat) : Nat → Nat → Matrix → List Matrix → List Matrix →
    List Matrix × List Matrix
  | 0, _lyr, _delta, nb, nw => (nb, nw)
  | fuel + 1, lyr, delta, nb, nw =>
      let sp := (zs.getD (lastLyr - lyr) default).apply sigd
      let delta2 := (((weights.getD (lastLyr - lyr + 1) default).transpose).dot delta).hadamard sp
      backLoop sigd weights zs activations lastLyr fuel (lyr + 1) delta2
        (nb ++ [delta2])
        (nw ++ [delta2.dot ((activations.getD (lastLyr - lyr) default).transpose)])

/-- One iteration of the final update loop of `NeuralNet::learn`:
`weights[lyr] -= nabla_w[revLyr] * eta` and
`biases[lyr] -= nabla_b[revLyr] * eta` with `revLyr = lastLyr - 1 - lyr`. -/
def updStep (eta : Rat) (nabla_w nabla_b : List Matrix) (lastLyr : Nat)
    (p : List Matrix × List Matrix) (lyr : Nat) : List Matrix × List Matrix :=
  let revLyr := lastLyr - 1 - lyr
  (p.1.set lyr ((p.1.getD lyr default).sub ((nabla_w.getD revLyr default).smul eta)),
   p.2.set lyr ((p.2.getD lyr default).sub ((nabla_b.getD revLyr default).smul eta)))

/-- `NeuralNet::learn`: the forward pass recording activations and
pre-activations, the output delta
`(activations.back() - expected) * zs.back().apply(invSigmoid)`, the first
nabla entries, the backward loop, and the in-place parameter update
(`lastLyr = layerSizes[0].size() - 1`, the width of the 1 x L layer-size
matrix minus one). -/
def NeuralNet.learn (sig sigd : Rat → Rat) (self : NeuralNet)
    (inputs expected : Matrix) (eta : Rat) : NeuralNet :=
  let fwd := (List.range self.biases.length).foldl
    (fwdStep sig self.weights self.biases) (inputs, [inputs], [])
  let activations := fwd.2.1
  let zs := fwd.2.2
  let delta := ((activations.getLastD default).sub expected).hadamard
    ((zs.getLastD default).apply sigd)
  let lastLyr := self.layerSizes.cols - 1
  let nb0 := [delta]
  let nw0 := [delta.dot ((activations.getD (lastLyr - 1) default).transpose)]
  let nabla := backLoop sigd self.weights zs activations lastLyr
    (lastLyr - 1) 2 delta nb0 nw0
  let upd := (List.range lastLyr).foldl (updStep eta nabla.2 nabla.1 lastLyr)
    (self.weights, self.biases)
  { self with weights := upd.1, biases := upd.2 }

/-- `operator<<(std::ostream, const NeuralNet)`: the layer-size matrix,
then every bias matrix, then every weight matrix. -/
def nnetWrite (nnet : NeuralNet) : List Token :=
  matWrite nnet.layerSizes ++ nnet.biases.flatMap matWrite ++
    nnet.weights.flatMap matWrite

/-- Read `n` matrices in sequence from a stream. -/
def readMats : Nat → IStream → List Matrix × IStream
  | 0, s => ([], s)
  | n + 1, s =>
      let r := matRead s
      let rest := readMats n r.2
      (r.1 :: rest.1, rest.2)

/-- `operator>>(std::istream, NeuralNet)`: read the layer-size matrix, set
`layerCount = layerSizes[0].size()` (the width of the 1 x L matrix), then
push `layerCount` bias matrices and `layerCount` weight matrices onto the
network's existing lists. -/
def nnetRead (nnet : NeuralNet) (s : IStream) : NeuralNet × IStream :=
  let ls := matRead s
  let layerCount := ls.1.cols
  let bs := readMats layerCount ls.2
  let ws := readMats layerCount bs.2
  ({ layerSizes := ls.1, biases := nnet.biases ++ bs.1,
     weights := nnet.weights ++ ws.1 }, ws.2)

/-- Modelled from the spec: a freshly created network with no parameters
yet, the target of deserialization (the default-constructed `NeuralNet`
declared in the missing `NeuralNet.h`). -/
def NeuralNet.fresh : NeuralNet :=
  { layerSizes := ⟨0, 0, []⟩, biases := [], weights := [] }

/-- The forward iteration of the spec, written as structural recursion over
the paired per-transition parameters:
`activation = sigmoid(weights[l].dot(activation) + biases[l])` in order. -/
def forwardIter (sig : Rat → Rat) : List (Matrix × Matrix) → Matrix → Matrix
  | [], a => a
  | (w, b) :: rest, a => forwardIter sig rest (((w.dot a).add b).apply sig)

/-- The spec's forward-pass activations: `specA 0 = input` and
`specA (l+1) = sigmoid(weights[l].dot(specA l) + biases[l])`. -/
def specA (sig : Rat → Rat) (weights biases : List Matrix) (x : Matrix) :
    Nat → Matrix
  | 0 => x
  | l + 1 =>
      (((weights.getD l default).dot (specA sig weights biases x l)).add
        (biases.getD l default)).apply sig

/-- The spec's pre-activations:
`specZ l = weights[l].dot(specA l) + biases[l]`. -/
def specZ (sig : Rat → Rat) (weights biases : List Matrix) (x : Matrix)
    (l : Nat) : Matrix :=
  ((weights.getD l default).dot (specA sig weights biases x l)).add
    (biases.getD l default)

/-- The spec's backward error signals for a network with `n` transitions,
indexed from the output: `specDelta 0` is the output delta
`(a_n - expected) ⊙ sigd(z_(n-1))`, and `specDelta (k+1)` (the delta of
transition `n-2-k`) is `(weights[n-1-k]^T.dot(specDelta k)) ⊙ sigd(z_(n-2-k))`. -/
def specDelta (sig sigd : Rat → Rat) (weights biases : List Matrix)
    (x expected : Matrix) (n : Nat) : Nat → Matrix
  | 0 =>
      ((specA sig weights biases x n).sub expected).hadamard
        ((specZ sig weights biases x (n - 1)).apply sigd)
  | k + 1 =>
      (((weights.getD (n - 1 - k) default).transpose).dot
        (specDelta sig sigd weights biases x expected n k)).hadamard
        ((specZ sig weights biases x (n - 2 - k)).apply sigd)

instance (m : Matrix) : Decidable m.WF := by
  unfold Matrix.WF; infer_instance

instance (net : NeuralNet) (ws : List Nat) : Decidable (ShapedNet net ws) := by
  unfold ShapedNet; infer_instance

end DigitNet

namespace DigitNet

theorem getD_map_range {α : Type} (n k : Nat) (f : Nat → α) (d : α) (hk : k < n) :
    ((List.range n).map f).getD k d = f k := by
  rw [List.getD_eq_getElem?_getD, List.getElem?_map, List.getElem?_range hk]
  rfl

theorem list_eq_map_range_getD {α : Type} (l : List α) (d : α) :
    l = (List.range l.length).map (fun i => l.getD i d) := by
  apply List.ext_getElem
  · simp
  · intro i h1 h2
    simp [List.getD_eq_getElem?_getD, List.getElem?_eq_getElem h1]

theorem sum_map_range_eq_finset_sum (n : Nat) (f : Nat → Rat) :
    ((List.range n).map f).sum = ∑ k ∈ Finset.range n, f k := by
  induction n with
  | zero => rfl
  | succ n ih =>
      rw [List.range_succ, List.map_append, List.sum_append,
        Finset.sum_range_succ, ih]
      simp

theorem Matrix.rows_ofFn (r c : Nat) (f : Nat → Nat → Rat) :
    (Matrix.ofFn r c f).rows = r := rfl

theorem Matrix.cols_ofFn (r c : Nat) (f : Nat → Nat → Rat) :
    (Matrix.ofFn r c f).cols = c := rfl

theorem Matrix.WF_ofFn (r c : Nat) (f : Nat → Nat → Rat) :
    (Matrix.ofFn r c f).WF := by
  simp [Matrix.ofFn, Matrix.WF]

theorem Matrix.get_ofFn (r c : Nat) (f : Nat → Nat → Rat) (i j : Nat)
    (hi : i < r) (hj : j < c) : (Matrix.ofFn r c f).get i j = f i j := by
  have hc : 0 < c := lt_of_le_of_lt (Nat.zero_le j) hj
  have hk : i * c + j < r * c := by
    have h1 : i * c + j < (i + 1) * c := by
      rw [Nat.succ_mul]; omega
    have h2 : (i + 1) * c ≤ r * c := Nat.mul_le_mul_right c hi
    omega
  have hdiv : (i * c + j) / c = i := by
    rw [Nat.mul_comm i c, Nat.mul_add_div hc, Nat.div_eq_of_lt hj]
    omega
  have hmod : (i * c + j) % c = j := by
    rw [Nat.mul_comm i c, Nat.mul_add_mod, Nat.mod_eq_of_lt hj]
  show ((List.range (r * c)).map (fun k => f (k / c) (k % c))).getD (i * (Matrix.ofFn r c f).cols + j) 0 = f i j
  show ((List.range (r * c)).map (fun k => f (k / c) (k % c))).getD (i * c + j) 0 = f i j
  rw [getD_map_range _ _ _ _ hk, hdiv, hmod]

theorem Matrix.get_data_eq (m : Matrix) (i j : Nat) :
    m.data.getD (i * m.cols + j) 0 = m.get i j := rfl

theorem Matrix.transpose_rows (m : Matrix) (hr : m.rows ≠ 0) (hc : m.cols ≠ 0) :
    m.transpose.rows = m.cols := by
  unfold Matrix.transpose
  rw [if_neg (by tauto)]
  rfl

theorem Matrix.transpose_cols (m : Matrix) (hr : m.rows ≠ 0) (hc : m.cols ≠ 0) :
    m.transpose.cols = m.rows := by
  unfold Matrix.transpose
  rw [if_neg (by tauto)]
  rfl

theorem Matrix.get_transpose (m : Matrix) (i j : Nat)
    (hi : i < m.rows) (hj : j < m.cols) : m.transpose.get j i = m.get i j := by
  have hr : m.rows ≠ 0 := by omega
  have hc : m.cols ≠ 0 := by omega
  unfold Matrix.transpose
  rw [if_neg (by tauto)]
  exact Matrix.get_ofFn _ _ _ _ _ hj hi

/-- Helper: the entry formula of the optimized `dot` under the
`cols == rhs.rows` precondition. -/
theorem Matrix.dot_get (A B : Matrix) (h : A.cols = B.rows) (i j : Nat)
    (hi : i < A.rows) (hj : j < B.cols) :
    (A.dot B).get i j =
      ((List.range A.cols).map (fun k => A.get i k * B.get k j)).sum := by
  unfold Matrix.dot
  rw [Matrix.get_ofFn _ _ _ _ _ hi hj]
  congr 1
  apply List.map_congr_left
  intro k hk
  rw [List.mem_range] at hk
  have h1 : A.data.getD (i * A.cols + k) 0 = A.get i k := rfl
  rw [h1]
  congr 1
  have hc : B.cols ≠ 0 := by omega
  have hr : B.rows ≠ 0 := by omega
  have ht : B.transpose = Matrix.ofFn B.cols B.rows (fun col row => B.get row col) := by
    unfold Matrix.transpose
    rw [if_neg (by tauto)]
  have h2 : B.transpose.cols = B.rows := by rw [ht]; rfl
  have h3 : B.transpose.data.getD (j * A.cols + k) 0 = B.transpose.get j k := by
    rw [h, ← h2]; rfl
  rw [h3, ht, Matrix.get_ofFn _ _ _ _ _ hj (by omega)]

/-- C2: for all matrices with the `A.cols == B.rows` precondition, `A.dot(B)`
has shape `A.rows x B.cols` and entry (i, j) is the sum over `k` of
`A[i][k] * B[k][j]`. -/
theorem claim_c2_dot_correct (A B : Matrix) (h : A.cols = B.rows) :
    (A.dot B).rows = A.rows ∧ (A.dot B).cols = B.cols ∧
    ∀ i, i < A.rows → ∀ j, j < B.cols →
      (A.dot B).get i j = ∑ k ∈ Finset.range B.rows, A.get i k * B.get k j := by
  refine ⟨rfl, rfl, ?_⟩
  intro i hi j hj
  rw [Matrix.dot_get A B h i j hi hj, h, sum_map_range_eq_finset_sum]

/-- Witness for C2 at concrete matrices. -/
theorem claim_c2_witness :
    ((⟨2, 3, [1, 2, 3, 4, 5, 6]⟩ : Matrix).cols = (⟨3, 2, [7, 8, 9, 10, 11, 12]⟩ : Matrix).rows) ∧
    ((⟨2, 3, [1, 2, 3, 4, 5, 6]⟩ : Matrix).dot ⟨3, 2, [7, 8, 9, 10, 11, 12]⟩).get 1 0 =
      ∑ k ∈ Finset.range 3, (⟨2, 3, [1, 2, 3, 4, 5, 6]⟩ : Matrix).get 1 k *
        (⟨3, 2, [7, 8, 9, 10, 11, 12]⟩ : Matrix).get k 0 :=
  ⟨rfl, (claim_c2_dot_correct ⟨2, 3, [1, 2, 3, 4, 5, 6]⟩ ⟨3, 2, [7, 8, 9, 10, 11, 12]⟩
    rfl).2.2 1 (by decide) 0 (by decide)⟩

/-- C10: `transpose` swaps the dimensions and entries of every nonempty
matrix, and returns every empty matrix (0 rows or 0 cols) unchanged. -/
theorem claim_c10_transpose (A : Matrix) :
    (A.rows ≠ 0 → A.cols ≠ 0 →
      A.transpose.rows = A.cols ∧ A.transpose.cols = A.rows ∧
      ∀ i, i < A.rows → ∀ j, j < A.cols → A.transpose.get j i = A.get i j) ∧
    (A.rows = 0 ∨ A.cols = 0 → A.transpose = A) := by
  constructor
  · intro hr hc
    exact ⟨Matrix.transpose_rows A hr hc, Matrix.transpose_cols A hr hc,
      fun i hi j hj => Matrix.get_transpose A i j hi hj⟩
  · intro h
    unfold Matrix.transpose
    rw [if_pos h]

/-- Witness for C10 at a concrete matrix and a concrete empty matrix. -/
theorem claim_c10_witness :
    ((⟨2, 3, [1, 2, 3, 4, 5, 6]⟩ : Matrix).transpose.get 2 1 =
      (⟨2, 3, [1, 2, 3, 4, 5, 6]⟩ : Matrix).get 1 2) ∧
    (⟨0, 3, []⟩ : Matrix).transpose = ⟨0, 3, []⟩ :=
  ⟨((claim_c10_transpose ⟨2, 3, [1, 2, 3, 4, 5, 6]⟩).1 (by decide) (by decide)).2.2
      1 (by decide) 2 (by decide),
   (claim_c10_transpose ⟨0, 3, []⟩).2 (Or.inl rfl)⟩


theorem headD_eq_getD_zero {α : Type} (l : List α) (d : α) :
    l.headD d = l.getD 0 d := by
  cases l <;> rfl

theorem toLists_length (m : Matrix) : m.toLists.length = m.rows := by
  simp [Matrix.toLists]

theorem toLists_getD (m : Matrix) (r : Nat) (hr : r < m.rows) :
    m.toLists.getD r [] = (List.range m.cols).map (fun c => m.get r c) := by
  unfold Matrix.toLists
  rw [getD_map_range _ _ _ _ hr]

/-- C5: on every pair of compatible matrices with a nonempty right operand
(the baseline reads `rhs.front()`), the optimized flat-storage `dot` of
`src/Matrix.cpp` computes, entry for entry and in shape, the same result as
the baseline nested-vector `dot` of the original implementation. -/
theorem claim_c5_dot_refinement (A B : Matrix) (h : A.cols = B.rows)
    (hbr : 0 < B.rows) :
    dotBase A.toLists B.toLists = (A.dot B).toLists := by
  by_cases hA0 : A.rows = 0
  · simp [dotBase, Matrix.toLists, hA0]
    exact hA0
  · have hwidth : (A.toLists.headD []).length = A.cols := by
      rw [headD_eq_getD_zero, toLists_getD A 0 (by omega)]
      simp
    have hmW : (B.toLists.headD []).length = B.cols := by
      rw [headD_eq_getD_zero, toLists_getD B 0 hbr]
      simp
    have hRHS : (A.dot B).toLists =
        (List.range A.rows).map (fun r =>
          (List.range B.cols).map (fun c => (A.dot B).get r c)) := rfl
    simp only [dotBase, hwidth, hmW, toLists_length, hRHS]
    apply List.map_congr_left
    intro row hrow
    rw [List.mem_range] at hrow
    apply List.map_congr_left
    intro col hcol
    rw [List.mem_range] at hcol
    rw [Matrix.dot_get A B h row col hrow hcol]
    congr 1
    apply List.map_congr_left
    intro i hi
    rw [List.mem_range] at hi
    rw [toLists_getD A row hrow, toLists_getD B i (by omega),
      getD_map_range _ _ _ _ hi, getD_map_range _ _ _ _ hcol]

/-- Witness for C5 at concrete matrices. -/
theorem claim_c5_witness :
    dotBase (⟨2, 3, [1, 2, 3, 4, 5, 6]⟩ : Matrix).toLists
        (⟨3, 2, [7, 8, 9, 10, 11, 12]⟩ : Matrix).toLists =
      ((⟨2, 3, [1, 2, 3, 4, 5, 6]⟩ : Matrix).dot ⟨3, 2, [7, 8, 9, 10, 11, 12]⟩).toLists :=
  claim_c5_dot_refinement ⟨2, 3, [1, 2, 3, 4, 5, 6]⟩ ⟨3, 2, [7, 8, 9, 10, 11, 12]⟩
    rfl (by decide)


theorem readNum_not_ok (s : IStream) (c : Rat) (h : s.ok = false) :
    s.readNum c = (c, s) := by
  unfold IStream.readNum
  rw [h]
  simp

theorem readN_not_ok (n : Nat) (s : IStream) (h : s.ok = false) :
    (readN n s).2.ok = false := by
  induction n generalizing s with
  | zero => exact h
  | succ n ih =>
      unfold readN
      rw [readNum_not_ok s 0 h]
      exact ih s h

theorem readN_ok_le (n : Nat) (s : IStream) (h : (readN n s).2.ok = true) :
    n ≤ s.toks.length := by
  induction n generalizing s with
  | zero => exact Nat.zero_le _
  | succ n ih =>
      obtain ⟨toks, ok⟩ := s
      cases ok with
      | false =>
          rw [readN_not_ok (n + 1) ⟨toks, false⟩ rfl] at h
          exact absurd h (by simp)
      | true =>
          cases toks with
          | nil =>
              have : (readN (n + 1) ⟨[], true⟩).2.ok = false := by
                unfold readN
                have h1 : (IStream.readNum ⟨[], true⟩ 0) = (0, ⟨[], false⟩) := rfl
                rw [h1]
                exact readN_not_ok n ⟨[], false⟩ rfl
              rw [this] at h
              exact absurd h (by simp)
          | cons t rest =>
              cases t with
              | num q =>
                  have h1 : (IStream.readNum ⟨Token.num q :: rest, true⟩ 0) =
                      (q, ⟨rest, true⟩) := rfl
                  unfold readN at h
                  rw [h1] at h
                  have := ih ⟨rest, true⟩ h
                  simp at this ⊢
                  omega
              | word w =>
                  have h1 : (IStream.readNum ⟨Token.word w :: rest, true⟩ 0) =
                      (0, ⟨Token.word w :: rest, false⟩) := rfl
                  unfold readN at h
                  rw [h1] at h
                  have := readN_not_ok n ⟨Token.word w :: rest, false⟩ rfl
                  rw [this] at h
                  exact absurd h (by simp)

theorem readN_exact (l : List Rat) (rest : List Token) :
    readN l.length ⟨l.map Token.num ++ rest, true⟩ = (l, ⟨rest, true⟩) := by
  induction l with
  | nil => rfl
  | cons q l ih =>
      have h1 : (IStream.readNum ⟨(q :: l).map Token.num ++ rest, true⟩ 0) =
          (q, ⟨l.map Token.num ++ rest, true⟩) := rfl
      show readN (l.length + 1) ⟨(q :: l).map Token.num ++ rest, true⟩ = _
      unfold readN
      simp only [h1, ih]

theorem flatMap_range_getD (r c : Nat) (d : List Rat) :
    (List.range r).flatMap (fun i => (List.range c).map (fun j => d.getD (i * c + j) 0)) =
      (List.range (r * c)).map (fun k => d.getD k 0) := by
  induction r with
  | zero => simp
  | succ r ih =>
      rw [List.range_succ, List.flatMap_append, ih, Nat.succ_mul, List.range_add,
        List.map_append, List.map_map]
      congr 1
      simp [Function.comp]

theorem matWrite_eq (m : Matrix) (h : m.WF) :
    matWrite m = Token.num (m.rows : Rat) :: Token.num (m.cols : Rat) ::
      m.data.map Token.num := by
  unfold matWrite
  congr 1
  congr 1
  have h1 : (List.range m.rows).flatMap
      (fun row => (List.range m.cols).map (fun col => Token.num (m.data.getD (row * m.cols + col) 0))) =
      ((List.range m.rows).flatMap
        (fun row => (List.range m.cols).map (fun col => m.data.getD (row * m.cols + col) 0))).map Token.num := by
    rw [List.map_flatMap]
    congr 1
    funext row
    rw [List.map_map]
    rfl
  rw [h1, flatMap_range_getD]
  unfold Matrix.WF at h
  rw [← h]
  congr 1
  exact (list_eq_map_range_getD m.data 0).symm

/-- Helper: reading a matrix from a stream that starts with a well-formed
integral header consumes the header and then `r * c` values. -/
theorem matRead_good (r c : Nat) (rest : List Token) :
    matRead ⟨Token.num (r : Rat) :: Token.num (c : Rat) :: rest, true⟩ =
      (⟨r, c, (readN (r * c) ⟨rest, true⟩).1⟩, (readN (r * c) ⟨rest, true⟩).2) := by
  unfold matRead IStream.readInt
  simp [Matrix.ofDims]

/-- C7: deserializing the token stream produced by serializing a well-formed
matrix yields that matrix back (same rows, cols and values), with the whole
stream consumed and no error raised. -/
theorem claim_c7_matrix_roundtrip (M : Matrix) (h : M.WF) :
    (matRead ⟨matWrite M, true⟩).1 = M ∧
      (matRead ⟨matWrite M, true⟩).2 = ⟨[], true⟩ := by
  rw [matWrite_eq M h, matRead_good M.rows M.cols (M.data.map Token.num)]
  have h6 := readN_exact M.data []
  rw [List.append_nil] at h6
  have h5 : M.rows * M.cols = M.data.length := h.symm
  rw [h5, h6]
  exact ⟨rfl, rfl⟩

/-- Witness for C7 at a concrete matrix. -/
theorem claim_c7_witness :
    (matRead ⟨matWrite ⟨2, 2, [1, 5/2, -3, 0]⟩, true⟩).1 = ⟨2, 2, [1, 5/2, -3, 0]⟩ ∧
      (matRead ⟨matWrite ⟨2, 2, [1, 5/2, -3, 0]⟩, true⟩).2 = ⟨[], true⟩ :=
  claim_c7_matrix_roundtrip ⟨2, 2, [1, 5/2, -3, 0]⟩ (by decide)


/-- C8: on every stream whose matrix header is malformed (not two integral
numeric tokens) and on every stream whose well-formed header promises more
values than the stream holds, `operator>>` leaves the stream in the failed
state, signalling the error to the caller. -/
theorem claim_c8_matread_fails (toks : List Token)
    (h : headerBad toks = true ∨ truncatedVals toks = true) :
    (matRead ⟨toks, true⟩).2.ok = false := by
  cases toks with
  | nil => rfl
  | cons t rest1 =>
    cases t with
    | word w => rfl
    | num a =>
      by_cases ha : a.den = 1
      · cases rest1 with
        | nil =>
            simp [matRead, IStream.readInt, ha, Matrix.ofDims, readN]
        | cons t2 rest =>
          cases t2 with
          | word w =>
              simp [matRead, IStream.readInt, ha, Matrix.ofDims, readN]
          | num b =>
            by_cases hb : b.den = 1
            · have hlen : rest.length < a.num.toNat * b.num.toNat := by
                rcases h with h | h
                · simp [headerBad, ha, hb] at h
                · simp [truncatedVals, ha, hb] at h
                  exact h
              have hred : (matRead ⟨Token.num a :: Token.num b :: rest, true⟩).2 =
                  (readN (a.num.toNat * b.num.toNat) ⟨rest, true⟩).2 := by
                simp [matRead, IStream.readInt, ha, hb, Matrix.ofDims]
              rw [hred]
              cases hok : (readN (a.num.toNat * b.num.toNat) ⟨rest, true⟩).2.ok with
              | false => rfl
              | true =>
                  have hle := readN_ok_le _ _ hok
                  simp at hle
                  omega
            · simp [matRead, IStream.readInt, ha, hb, Matrix.ofDims, readN]
      · simp [matRead, IStream.readInt, ha, Matrix.ofDims, readN]

/-- Witness for C8: a truncated stream (header 2 x 2 but a single value)
and a malformed header (a non-numeric first token). -/
theorem claim_c8_witness :
    (matRead ⟨[Token.num 2, Token.num 2, Token.num 1], true⟩).2.ok = false ∧
      (matRead ⟨[Token.word "x"], true⟩, true).1.2.ok = false :=
  ⟨claim_c8_matread_fails [Token.num 2, Token.num 2, Token.num 1] (Or.inr (by decide)),
   claim_c8_matread_fails [Token.word "x"] (Or.inl (by decide))⟩

/-- C4 (refutation at a concrete input): round-tripping the network with
layer widths {1, 1} through the stream operators does not reconstruct the
original network — `operator<<` writes L-1 = 1 bias block and 1 weight
block, but `operator>>` reads `layerCount = L = 2` of each, so the second
bias read consumes the weight block, the stream ends in the failed state,
and the reconstructed parameter lists differ from the originals. -/
theorem claim_c4_roundtrip_bug :
    (nnetRead NeuralNet.fresh ⟨nnetWrite (NeuralNet.ofLayers [1, 1]), true⟩).1 ≠
        NeuralNet.ofLayers [1, 1] ∧
      (nnetRead NeuralNet.fresh ⟨nnetWrite (NeuralNet.ofLayers [1, 1]), true⟩).1.biases.length = 2 ∧
      (NeuralNet.ofLayers [1, 1]).biases.length = 1 ∧
      (nnetRead NeuralNet.fresh ⟨nnetWrite (NeuralNet.ofLayers [1, 1]), true⟩).2.ok = false := by
  decide


theorem foldl_pair_snd {α β γ : Type} (f : α × β → γ → α) (l : List γ) (a : α) (b : β) :
    (l.foldl (fun st x => (f st x, st.2)) (a, b)) =
      (l.foldl (fun y x => f (y, b) x) a, b) := by
  induction l generalizing a with
  | nil => rfl
  | cons x l ih => simp only [List.foldl_cons]; exact ih (f (a, b) x)

/-- C9: `classify` is deterministic and mutation-free: it depends only on
the weight and bias lists (two networks with equal parameters classify
every input identically), and the network threaded through the loop comes
back unchanged. -/
theorem claim_c9_classify_pure (sig : Rat → Rat) (net net2 : NeuralNet)
    (x : Matrix) (hw : net.weights = net2.weights) (hb : net.biases = net2.biases) :
    (net.classify sig x).1 = (net2.classify sig x).1 ∧
      (net.classify sig x).2 = net := by
  unfold NeuralNet.classify
  rw [foldl_pair_snd (fun (st : Matrix × NeuralNet) lyr =>
        (((st.2.weights.getD lyr default).dot st.1).add
          (st.2.biases.getD lyr default)).apply sig) (List.range net.weights.length) x net,
      foldl_pair_snd (fun (st : Matrix × NeuralNet) lyr =>
        (((st.2.weights.getD lyr default).dot st.1).add
          (st.2.biases.getD lyr default)).apply sig) (List.range net2.weights.length) x net2]
  refine ⟨?_, rfl⟩
  simp only [hw, hb]

/-- Witness for C9 at a concrete network and input. -/
theorem claim_c9_witness :
    ((NeuralNet.ofLayers [2, 2]).classify (fun q => q) ⟨2, 1, [1, 2]⟩).1 =
      ((NeuralNet.ofLayers [2, 2]).classify (fun q => q) ⟨2, 1, [1, 2]⟩).1 ∧
    ((NeuralNet.ofLayers [2, 2]).classify (fun q => q) ⟨2, 1, [1, 2]⟩).2 =
      NeuralNet.ofLayers [2, 2] :=
  claim_c9_classify_pure (fun q => q) (NeuralNet.ofLayers [2, 2])
    (NeuralNet.ofLayers [2, 2]) ⟨2, 1, [1, 2]⟩ rfl rfl

theorem foldl_range_eq_forwardIter (sig : Rat → Rat) (ws : List Matrix) :
    ∀ (bs : List Matrix) (a : Matrix), ws.length = bs.length →
    (List.range ws.length).foldl
      (fun y lyr => (((ws.getD lyr default).dot y).add (bs.getD lyr default)).apply sig) a =
      forwardIter sig (ws.zip bs) a := by
  induction ws with
  | nil => intro bs a h; rfl
  | cons w ws ih =>
      intro bs a h
      cases bs with
      | nil => simp at h
      | cons b bs =>
          rw [List.length_cons, List.range_succ_eq_map, List.foldl_cons, List.foldl_map]
          have h2 : ws.length = bs.length := by simpa using h
          exact ih bs (((w.dot a).add b).apply sig) h2

theorem forwardIter_cols (sig : Rat → Rat) :
    ∀ (ps : List (Matrix × Matrix)) (a : Matrix), (forwardIter sig ps a).cols = a.cols := by
  intro ps
  induction ps with
  | nil => intro a; rfl
  | cons p ps ih => intro a; exact ih _

theorem forwardIter_rows (sig : Rat → Rat) :
    ∀ (ps : List (Matrix × Matrix)) (a : Matrix),
      (forwardIter sig ps a).rows = (ps.map (fun p => p.1.rows)).getLastD a.rows := by
  intro ps
  induction ps with
  | nil => intro a; rfl
  | cons p ps ih =>
      intro a
      rw [List.map_cons, List.getLastD_cons]
      exact ih _

theorem getLastD_eq_getD {α : Type} : ∀ (l : List α) (d : α),
    l.getLastD d = l.getD (l.length - 1) d := by
  intro l
  induction l with
  | nil => intro d; rfl
  | cons x l ih =>
      intro d
      rw [List.getLastD_cons, ih]
      cases l with
      | nil => rfl
      | cons y l => simp [List.getD_cons_succ]

/-- C3: `classify` computes exactly the iteration
`activation = sigmoid(weights[l].dot(activation) + biases[l])` over the
transitions in order, and on a `ws[0] x 1` input of a shaped network it
returns a `ws[L-1] x 1` column matrix. -/
theorem claim_c3_classify (sig : Rat → Rat) (net : NeuralNet) (ws : List Nat)
    (x : Matrix) (hnet : ShapedNet net ws) (hL : 2 ≤ ws.length)
    (hx1 : x.rows = ws.getD 0 0) (hx2 : x.cols = 1) :
    (net.classify sig x).1 = forwardIter sig (net.weights.zip net.biases) x ∧
      (net.classify sig x).1.rows = ws.getD (ws.length - 1) 0 ∧
      (net.classify sig x).1.cols = 1 := by
  obtain ⟨hr1, hc1, hbl, hwl, hsh⟩ := hnet
  have hlen : net.weights.length = net.biases.length := by rw [hwl, hbl]
  have h1 : (net.classify sig x).1 = forwardIter sig (net.weights.zip net.biases) x := by
    unfold NeuralNet.classify
    rw [foldl_pair_snd (fun (st : Matrix × NeuralNet) lyr =>
          (((st.2.weights.getD lyr default).dot st.1).add
            (st.2.biases.getD lyr default)).apply sig) (List.range net.weights.length) x net]
    show (List.range net.weights.length).foldl
      (fun y lyr => (((net.weights.getD lyr default).dot y).add
        (net.biases.getD lyr default)).apply sig) x = _
    exact foldl_range_eq_forwardIter sig net.weights net.biases x hlen
  refine ⟨h1, ?_, ?_⟩
  · rw [h1, forwardIter_rows]
    have hzlen : (net.weights.zip net.biases).length = ws.length - 1 := by
      rw [List.length_zip, hwl, hbl, Nat.min_self]
    have hn1 : 1 ≤ ws.length - 1 := by omega
    have hmap : (net.weights.zip net.biases).map (fun p => p.1.rows) =
        (List.range (ws.length - 1)).map (fun l => ws.getD (l + 1) 0) := by
      apply List.ext_getElem
      · simp [hzlen]
      · intro i h1' h2'
        rw [List.getElem_map, List.getElem_map, List.getElem_range]
        have hi : i < ws.length - 1 := by
          rw [List.length_map, hzlen] at h1'
          exact h1'
        have hiw : i < net.weights.length := by omega
        have hib : i < net.biases.length := by omega
        rw [List.getElem_zip]
        have : net.weights[i] = net.weights.getD i default := by
          rw [List.getD_eq_getElem?_getD, List.getElem?_eq_getElem hiw]
          rfl
        rw [this]
        exact (hsh i hi).1
    rw [hmap, getLastD_eq_getD]
    have hml : ((List.range (ws.length - 1)).map (fun l => ws.getD (l + 1) 0)).length =
        ws.length - 1 := by simp
    rw [hml, getD_map_range _ _ _ _ (by omega)]
    congr 1
    omega
  · rw [h1, forwardIter_cols, hx2]

/-- Witness for C3 at a concrete shaped network and input. -/
theorem claim_c3_witness :
    (((NeuralNet.ofLayers [2, 3, 1]).classify (fun q => q + 1) ⟨2, 1, [1, 2]⟩).1 =
      forwardIter (fun q => q + 1)
        ((NeuralNet.ofLayers [2, 3, 1]).weights.zip (NeuralNet.ofLayers [2, 3, 1]).biases)
        ⟨2, 1, [1, 2]⟩) ∧
    ((NeuralNet.ofLayers [2, 3, 1]).classify (fun q => q + 1) ⟨2, 1, [1, 2]⟩).1.rows = 1 ∧
    ((NeuralNet.ofLayers [2, 3, 1]).classify (fun q => q + 1) ⟨2, 1, [1, 2]⟩).1.cols = 1 :=
  claim_c3_classify (fun q => q + 1) (NeuralNet.ofLayers [2, 3, 1]) [2, 3, 1]
    ⟨2, 1, [1, 2]⟩ (by decide) (by decide) (by decide) (by decide)


theorem fwd_fold (sig : Rat → Rat) (ws bs : List Matrix) (x : Matrix) :
    ∀ k, (List.range k).foldl (fwdStep sig ws bs) (x, [x], []) =
      (specA sig ws bs x k,
       (List.range (k + 1)).map (specA sig ws bs x),
       (List.range k).map (specZ sig ws bs x)) := by
  intro k
  induction k with
  | zero => rfl
  | succ k ih =>
      have hstep : (List.range (k + 1)).foldl (fwdStep sig ws bs) (x, [x], []) =
          fwdStep sig ws bs ((List.range k).foldl (fwdStep sig ws bs) (x, [x], [])) k := by
        rw [List.range_succ, List.foldl_append, List.foldl_cons, List.foldl_nil]
      rw [hstep, ih]
      have hacts : (List.range (k + 1)).map (specA sig ws bs x) ++
          [specA sig ws bs x (k + 1)] = (List.range (k + 1 + 1)).map (specA sig ws bs x) := by
        conv_rhs => rw [List.range_succ]
        simp
      have hzs : (List.range k).map (specZ sig ws bs x) ++ [specZ sig ws bs x k] =
          (List.range (k + 1)).map (specZ sig ws bs x) := by
        conv_rhs => rw [List.range_succ]
        simp
      show (specA sig ws bs x (k + 1),
          (List.range (k + 1)).map (specA sig ws bs x) ++ [specA sig ws bs x (k + 1)],
          (List.range k).map (specZ sig ws bs x) ++ [specZ sig ws bs x k]) = _
      rw [hacts, hzs]

theorem getLastD_map_range {α : Type} (n : Nat) (g : Nat → α) (d : α) :
    ((List.range (n + 1)).map g).getLastD d = g n := by
  rw [getLastD_eq_getD]
  have hl : ((List.range (n + 1)).map g).length = n + 1 := by simp
  rw [hl]
  exact getD_map_range _ _ _ _ (by omega)

theorem backLoop_spec (sig sigd : Rat → Rat) (ws bs : List Matrix) (x y : Matrix)
    (n : Nat) (hn : 1 ≤ n) :
    ∀ fuel j, fuel + j = n - 1 →
      backLoop sigd ws ((List.range n).map (specZ sig ws bs x))
          ((List.range (n + 1)).map (specA sig ws bs x)) n fuel (j + 2)
          (specDelta sig sigd ws bs x y n j)
          ((List.range (j + 1)).map (specDelta sig sigd ws bs x y n))
          ((List.range (j + 1)).map (fun k => (specDelta sig sigd ws bs x y n k).dot
            ((specA sig ws bs x (n - 1 - k)).transpose)))
      = ((List.range n).map (specDelta sig sigd ws bs x y n),
         (List.range n).map (fun k => (specDelta sig sigd ws bs x y n k).dot
            ((specA sig ws bs x (n - 1 - k)).transpose))) := by
  intro fuel
  induction fuel with
  | zero =>
      intro j hj
      have hj1 : j + 1 = n := by omega
      rw [backLoop, hj1]
  | succ fuel ih =>
      intro j hj
      have hj2 : j + 2 ≤ n := by omega
      rw [backLoop]
      have hsp : ((List.range n).map (specZ sig ws bs x)).getD (n - (j + 2)) default =
          specZ sig ws bs x (n - (j + 2)) := getD_map_range _ _ _ _ (by omega)
      have hact : ((List.range (n + 1)).map (specA sig ws bs x)).getD (n - (j + 2)) default =
          specA sig ws bs x (n - (j + 2)) := getD_map_range _ _ _ _ (by omega)
      simp only [hsp, hact]
      have hidx1 : n - (j + 2) + 1 = n - 1 - j := by omega
      have hidx2 : n - (j + 2) = n - 2 - j := by omega
      have hdelta : (((ws.getD (n - (j + 2) + 1) default).transpose).dot
            (specDelta sig sigd ws bs x y n j)).hadamard
            ((specZ sig ws bs x (n - (j + 2))).apply sigd) =
          specDelta sig sigd ws bs x y n (j + 1) := by
        rw [hidx1, hidx2]
        rfl
      have hidx3 : n - (j + 2) = n - 1 - (j + 1) := by omega
      have hnb : (List.range (j + 1)).map (specDelta sig sigd ws bs x y n) ++
          [specDelta sig sigd ws bs x y n (j + 1)] =
          (List.range (j + 1 + 1)).map (specDelta sig sigd ws bs x y n) := by
        conv_rhs => rw [List.range_succ]
        simp
      have hnw : (List.range (j + 1)).map (fun k => (specDelta sig sigd ws bs x y n k).dot
            ((specA sig ws bs x (n - 1 - k)).transpose)) ++
          [(specDelta sig sigd ws bs x y n (j + 1)).dot
            ((specA sig ws bs x (n - 1 - (j + 1))).transpose)] =
          (List.range (j + 1 + 1)).map (fun k => (specDelta sig sigd ws bs x y n k).dot
            ((specA sig ws bs x (n - 1 - k)).transpose)) := by
        conv_rhs => rw [List.range_succ]
        simp
      rw [hdelta, hidx3, hnb, hnw]
      exact ih (j + 1) (by omega)


theorem foldl_updStep_aux (eta : Rat) (nw nb : List Matrix) (lastLyr : Nat)
    (ws0 bs0 : List Matrix) (hw : ws0.length = lastLyr) (hb : bs0.length = lastLyr) :
    ∀ k, k ≤ lastLyr →
      (List.range k).foldl (updStep eta nw nb lastLyr) (ws0, bs0) =
        ((List.range lastLyr).map (fun l => if l < k then
            (ws0.getD l default).sub ((nw.getD (lastLyr - 1 - l) default).smul eta)
          else ws0.getD l default),
         (List.range lastLyr).map (fun l => if l < k then
            (bs0.getD l default).sub ((nb.getD (lastLyr - 1 - l) default).smul eta)
          else bs0.getD l default)) := by
  intro k
  induction k with
  | zero =>
      intro _
      have h1 : (List.range lastLyr).map (fun l => if l < 0 then
          (ws0.getD l default).sub ((nw.getD (lastLyr - 1 - l) default).smul eta)
        else ws0.getD l default) = ws0 := by
        have h2 := list_eq_map_range_getD ws0 (default : Matrix)
        rw [hw] at h2
        simp only [Nat.not_lt_zero, if_false]
        exact h2.symm
      have h3 : (List.range lastLyr).map (fun l => if l < 0 then
          (bs0.getD l default).sub ((nb.getD (lastLyr - 1 - l) default).smul eta)
        else bs0.getD l default) = bs0 := by
        have h2 := list_eq_map_range_getD bs0 (default : Matrix)
        rw [hb] at h2
        simp only [Nat.not_lt_zero, if_false]
        exact h2.symm
      rw [List.range_zero, List.foldl_nil, h1, h3]
  | succ k ih =>
      intro hk
      have hk1 : k < lastLyr := by omega
      rw [List.range_succ, List.foldl_append, ih (by omega), List.foldl_cons,
        List.foldl_nil]
      have hgW : ((List.range lastLyr).map (fun l => if l < k then
          (ws0.getD l default).sub ((nw.getD (lastLyr - 1 - l) default).smul eta)
        else ws0.getD l default)).getD k default = ws0.getD k default := by
        rw [getD_map_range _ _ _ _ hk1]
        simp
      have hgB : ((List.range lastLyr).map (fun l => if l < k then
          (bs0.getD l default).sub ((nb.getD (lastLyr - 1 - l) default).smul eta)
        else bs0.getD l default)).getD k default = bs0.getD k default := by
        rw [getD_map_range _ _ _ _ hk1]
        simp
      simp only [updStep, hgW, hgB]
      rw [Prod.mk.injEq]
      constructor
      · apply List.ext_getElem
        · simp
        · intro i h1 h2
          rw [List.getElem_set]
          simp only [List.getElem_map, List.getElem_range]
          by_cases hki : k = i
          · subst hki
            rw [if_pos rfl, if_pos (by omega)]
          · rw [if_neg hki]
            by_cases hik : i < k
            · rw [if_pos hik, if_pos (by omega)]
            · rw [if_neg hik, if_neg (by omega)]
      · apply List.ext_getElem
        · simp
        · intro i h1 h2
          rw [List.getElem_set]
          simp only [List.getElem_map, List.getElem_range]
          by_cases hki : k = i
          · subst hki
            rw [if_pos rfl, if_pos (by omega)]
          · rw [if_neg hki]
            by_cases hik : i < k
            · rw [if_pos hik, if_pos (by omega)]
            · rw [if_neg hik, if_neg (by omega)]

theorem foldl_updStep (eta : Rat) (nw nb : List Matrix) (lastLyr : Nat)
    (ws0 bs0 : List Matrix) (hw : ws0.length = lastLyr) (hb : bs0.length = lastLyr) :
    (List.range lastLyr).foldl (updStep eta nw nb lastLyr) (ws0, bs0) =
      ((List.range lastLyr).map (fun l =>
          (ws0.getD l default).sub ((nw.getD (lastLyr - 1 - l) default).smul eta)),
       (List.range lastLyr).map (fun l =>
          (bs0.getD l default).sub ((nb.getD (lastLyr - 1 - l) default).smul eta))) := by
  rw [foldl_updStep_aux eta nw nb lastLyr ws0 bs0 hw hb lastLyr le_rfl,
    Prod.mk.injEq]
  constructor
  · apply List.map_congr_left
    intro l hl
    rw [List.mem_range] at hl
    rw [if_pos hl]
  · apply List.map_congr_left
    intro l hl
    rw [List.mem_range] at hl
    rw [if_pos hl]


theorem learn_spec_form (sig sigd : Rat → Rat) (net : NeuralNet) (x y : Matrix)
    (eta : Rat) (n : Nat) (hn : 1 ≤ n) (hbl : net.biases.length = n)
    (hwl : net.weights.length = n) (hc : net.layerSizes.cols = n + 1) :
    (net.learn sig sigd x y eta).weights = (List.range n).map (fun l =>
        (net.weights.getD l default).sub
          (((specDelta sig sigd net.weights net.biases x y n (n - 1 - l)).dot
            ((specA sig net.weights net.biases x l).transpose)).smul eta)) ∧
    (net.learn sig sigd x y eta).biases = (List.range n).map (fun l =>
        (net.biases.getD l default).sub
          ((specDelta sig sigd net.weights net.biases x y n (n - 1 - l)).smul eta)) ∧
    (net.learn sig sigd x y eta).layerSizes = net.layerSizes := by
  have hfwd := fwd_fold sig net.weights net.biases x n
  simp only [NeuralNet.learn, hbl, hc, hfwd, Nat.add_sub_cancel]
  have hga : ((List.range (n + 1)).map (specA sig net.weights net.biases x)).getLastD default =
      specA sig net.weights net.biases x n := getLastD_map_range n _ default
  have hn1 : n - 1 + 1 = n := by omega
  have hgz : ((List.range n).map (specZ sig net.weights net.biases x)).getLastD default =
      specZ sig net.weights net.biases x (n - 1) := by
    conv_lhs => rw [← hn1]
    exact getLastD_map_range (n - 1) _ default
  have hact0 : ((List.range (n + 1)).map (specA sig net.weights net.biases x)).getD (n - 1) default =
      specA sig net.weights net.biases x (n - 1) := getD_map_range _ _ _ _ (by omega)
  simp only [hga, hgz, hact0]
  have hback := backLoop_spec sig sigd net.weights net.biases x y n hn (n - 1) 0 (by omega)
  have hr1 : List.range 1 = [0] := rfl
  simp only [Nat.zero_add, Nat.sub_zero, hr1, List.map_cons, List.map_nil,
    specDelta] at hback
  have hbx := congrArg Prod.fst hback
  have hby := congrArg Prod.snd hback
  dsimp only at hbx hby
  rw [hby, hbx]
  rw [foldl_updStep eta _ _ n net.weights net.biases hwl hbl]
  dsimp only
  refine ⟨?_, ?_, trivial⟩
  · apply List.map_congr_left
    intro l hl
    rw [List.mem_range] at hl
    rw [getD_map_range _ _ _ _ (show n - 1 - l < n by omega)]
    have hll : n - 1 - (n - 1 - l) = l := by omega
    rw [hll]
  · apply List.map_congr_left
    intro l hl
    rw [List.mem_range] at hl
    rw [getD_map_range _ _ _ _ (show n - 1 - l < n by omega)]


theorem Matrix.WF_ofDims (r c : Nat) (v : Rat) : (Matrix.ofDims r c v).WF := by
  simp [Matrix.ofDims, Matrix.WF]

theorem Matrix.get_ofDims_zero (r c i j : Nat) :
    (Matrix.ofDims r c 0).get i j = 0 := by
  unfold Matrix.ofDims Matrix.get
  rw [List.getD_eq_getElem?_getD, List.getElem?_replicate]
  by_cases h : i * c + j < r * c
  · rw [if_pos h]
    rfl
  · rw [if_neg h]
    rfl

theorem Matrix.rows_sub (a b : Matrix) : (a.sub b).rows = a.rows := rfl

theorem Matrix.cols_sub (a b : Matrix) : (a.sub b).cols = a.cols := rfl

theorem Matrix.WF_sub (a b : Matrix) : (a.sub b).WF := Matrix.WF_ofFn _ _ _

theorem ofLayers_shaped (layers : List Nat) :
    ShapedNet (NeuralNet.ofLayers layers) layers := by
  refine ⟨rfl, rfl, ?_, ?_, ?_⟩
  · simp [NeuralNet.ofLayers, initBiasAndWeightMatrices]
  · simp [NeuralNet.ofLayers, initBiasAndWeightMatrices]
  · intro l hl
    have hb : (NeuralNet.ofLayers layers).biases.getD l default =
        Matrix.ofDims (layers.getD (l + 1) 0) 1 0 := by
      show ((List.range (layers.length - 1)).map (fun k =>
        Matrix.ofDims (layers.getD (k + 1) 0) 1 0)).getD l default = _
      rw [getD_map_range _ _ _ _ hl]
    have hw : (NeuralNet.ofLayers layers).weights.getD l default =
        Matrix.ofDims (layers.getD (l + 1) 0) (layers.getD l 0) 0 := by
      show ((List.range (layers.length - 1)).map (fun k =>
        Matrix.ofDims (layers.getD (k + 1) 0) (layers.getD k 0) 0)).getD l default = _
      rw [getD_map_range _ _ _ _ hl]
    rw [hb, hw]
    exact ⟨rfl, rfl, Matrix.WF_ofDims _ _ _, rfl, rfl, Matrix.WF_ofDims _ _ _⟩

/-- C6: construction gives L-1 well-shaped zero-valued parameter matrices
per transition, and a learn step preserves the lengths and shapes. -/
theorem claim_c6_init_shapes (layers : List Nat) (hL : 2 ≤ layers.length) :
    (ShapedNet (NeuralNet.ofLayers layers) layers ∧
      (∀ l i j, ((NeuralNet.ofLayers layers).weights.getD l default).get i j = 0) ∧
      (∀ l i j, ((NeuralNet.ofLayers layers).biases.getD l default).get i j = 0)) ∧
    (∀ sig sigd (net : NeuralNet) (x y : Matrix) (eta : Rat),
      ShapedNet net layers → ShapedNet (net.learn sig sigd x y eta) layers) := by
  constructor
  · refine ⟨ofLayers_shaped layers, ?_, ?_⟩
    · intro l i j
      by_cases hl : l < layers.length - 1
      · have hw : (NeuralNet.ofLayers layers).weights.getD l default =
            Matrix.ofDims (layers.getD (l + 1) 0) (layers.getD l 0) 0 := by
          show ((List.range (layers.length - 1)).map (fun k =>
            Matrix.ofDims (layers.getD (k + 1) 0) (layers.getD k 0) 0)).getD l default = _
          rw [getD_map_range _ _ _ _ hl]
        rw [hw, Matrix.get_ofDims_zero]
      · have hw : (NeuralNet.ofLayers layers).weights.getD l default = default := by
          apply List.getD_eq_default
          simp [NeuralNet.ofLayers, initBiasAndWeightMatrices]
          omega
        rw [hw]
        rfl
    · intro l i j
      by_cases hl : l < layers.length - 1
      · have hb : (NeuralNet.ofLayers layers).biases.getD l default =
            Matrix.ofDims (layers.getD (l + 1) 0) 1 0 := by
          show ((List.range (layers.length - 1)).map (fun k =>
            Matrix.ofDims (layers.getD (k + 1) 0) 1 0)).getD l default = _
          rw [getD_map_range _ _ _ _ hl]
        rw [hb, Matrix.get_ofDims_zero]
      · have hb : (NeuralNet.ofLayers layers).biases.getD l default = default := by
          apply List.getD_eq_default
          simp [NeuralNet.ofLayers, initBiasAndWeightMatrices]
          omega
        rw [hb]
        rfl
  · intro sig sigd net x y eta hnet
    obtain ⟨h1, h2, h3, h4, h5⟩ := hnet
    have hn1 : 1 ≤ layers.length - 1 := by omega
    have hsf := learn_spec_form sig sigd net x y eta (layers.length - 1) hn1
      (by rw [h3]) (by rw [h4]) (by rw [h2]; omega)
    refine ⟨?_, ?_, ?_, ?_, ?_⟩
    · rw [hsf.2.2]
      exact h1
    · rw [hsf.2.2]
      exact h2
    · rw [hsf.2.1]
      simp
    · rw [hsf.1]
      simp
    · intro l hl
      have hwg : (net.learn sig sigd x y eta).weights.getD l default =
          (net.weights.getD l default).sub
            (((specDelta sig sigd net.weights net.biases x y (layers.length - 1)
                (layers.length - 1 - 1 - l)).dot
              ((specA sig net.weights net.biases x l).transpose)).smul eta) := by
        rw [hsf.1, getD_map_range _ _ _ _ hl]
      have hbg : (net.learn sig sigd x y eta).biases.getD l default =
          (net.biases.getD l default).sub
            ((specDelta sig sigd net.weights net.biases x y (layers.length - 1)
                (layers.length - 1 - 1 - l)).smul eta) := by
        rw [hsf.2.1, getD_map_range _ _ _ _ hl]
      rw [hwg, hbg]
      obtain ⟨g1, g2, g3, g4, g5, g6⟩ := h5 l hl
      exact ⟨by rw [Matrix.rows_sub, g1], by rw [Matrix.cols_sub, g2], Matrix.WF_sub _ _,
        by rw [Matrix.rows_sub, g4], by rw [Matrix.cols_sub, g5], Matrix.WF_sub _ _⟩

/-- Witness for C6 at the concrete layer list {2, 3}. -/
theorem claim_c6_witness :
    ShapedNet (NeuralNet.ofLayers [2, 3]) [2, 3] ∧
    ShapedNet ((NeuralNet.ofLayers [2, 3]).learn (fun q => q) (fun q => q)
      ⟨2, 1, [1, 2]⟩ ⟨3, 1, [1, 0, 0]⟩ 1) [2, 3] :=
  ⟨(claim_c6_init_shapes [2, 3] (by decide)).1.1,
   (claim_c6_init_shapes [2, 3] (by decide)).2 (fun q => q) (fun q => q)
     (NeuralNet.ofLayers [2, 3]) ⟨2, 1, [1, 2]⟩ ⟨3, 1, [1, 0, 0]⟩ 1 (by decide)⟩

/-- C1: a learn call updates every layer's weights and biases by
subtracting `eta` times the backpropagation gradients: the deltas follow
the spec recurrence (output delta from the recorded forward pass, earlier
deltas through the transposed next-layer weights, Hadamard the derivative
of the recorded pre-activation), the bias gradient is the delta and the
weight gradient is `delta.dot(activation^T)` of the previous layer. -/
theorem claim_c1_learn_backprop (sig sigd : Rat → Rat) (net : NeuralNet)
    (ws : List Nat) (x y : Matrix) (eta : Rat) (n : Nat)
    (hnet : ShapedNet net ws) (hn : ws.length = n + 1) (hL : 2 ≤ ws.length)
    (hx1 : x.rows = ws.getD 0 0) (hx2 : x.cols = 1)
    (hy1 : y.rows = ws.getD (ws.length - 1) 0) (hy2 : y.cols = 1) :
    (net.learn sig sigd x y eta).weights = (List.range n).map (fun l =>
        (net.weights.getD l default).sub
          (((specDelta sig sigd net.weights net.biases x y n (n - 1 - l)).dot
            ((specA sig net.weights net.biases x l).transpose)).smul eta)) ∧
    (net.learn sig sigd x y eta).biases = (List.range n).map (fun l =>
        (net.biases.getD l default).sub
          ((specDelta sig sigd net.weights net.biases x y n (n - 1 - l)).smul eta)) := by
  obtain ⟨h1, h2, h3, h4, h5⟩ := hnet
  have hn1 : 1 ≤ n := by omega
  have hsf := learn_spec_form sig sigd net x y eta n hn1
    (by rw [h3, hn]; omega) (by rw [h4, hn]; omega) (by rw [h2, hn])
  exact ⟨hsf.1, hsf.2.1⟩

/-- Witness for C1 on the concrete network with layer widths {1, 1}. -/
theorem claim_c1_witness :
    ((NeuralNet.ofLayers [1, 1]).learn (fun q => q) (fun q => q)
        ⟨1, 1, [2]⟩ ⟨1, 1, [1]⟩ 1).weights = (List.range 1).map (fun l =>
        ((NeuralNet.ofLayers [1, 1]).weights.getD l default).sub
          (((specDelta (fun q => q) (fun q => q) (NeuralNet.ofLayers [1, 1]).weights
              (NeuralNet.ofLayers [1, 1]).biases ⟨1, 1, [2]⟩ ⟨1, 1, [1]⟩ 1 (1 - 1 - l)).dot
            ((specA (fun q => q) (NeuralNet.ofLayers [1, 1]).weights
              (NeuralNet.ofLayers [1, 1]).biases ⟨1, 1, [2]⟩ l).transpose)).smul 1)) ∧
    ((NeuralNet.ofLayers [1, 1]).learn (fun q => q) (fun q => q)
        ⟨1, 1, [2]⟩ ⟨1, 1, [1]⟩ 1).biases = (List.range 1).map (fun l =>
        ((NeuralNet.ofLayers [1, 1]).biases.getD l default).sub
          ((specDelta (fun q => q) (fun q => q) (NeuralNet.ofLayers [1, 1]).weights
              (NeuralNet.ofLayers [1, 1]).biases ⟨1, 1, [2]⟩ ⟨1, 1, [1]⟩ 1 (1 - 1 - l)).smul 1)) :=
  claim_c1_learn_backprop (fun q => q) (fun q => q) (NeuralNet.ofLayers [1, 1])
    [1, 1] ⟨1, 1, [2]⟩ ⟨1, 1, [1]⟩ 1 1 (by decide) rfl (by decide)
    (by decide) (by decide) (by decide) (by decide)

end DigitNet
